import Mathlib

/-
Verification of the graph-rewriting and tensor-extraction subsystem of
src/utils.py: extract_data, find_initializer, find_tensor_value_info and
change_batch_size, over a shallow embedding of the ONNX protobuf records the
code manipulates.

Modelling conventions:
* Machine integers are Nat/Int.  A 32-bit float is represented by its IEEE-754
  bit pattern (a Nat below 2^32): the Python code only moves float values around
  (protobuf float field <-> struct.iter_unpack 'f'), it never computes with
  them, and the widening of a float32 bit pattern to a Python float is
  injective, so bit-pattern equality is value equality.
* Python exceptions are an explicit error type; functions that can raise return
  Except.  change_batch_size mutates its argument in place, so its embedding
  returns the mutated model and, on an exception, pairs the error with the
  model state at the moment the exception is raised (the caller of the Python
  function observes exactly that state).
* TensorProto.dims entries are int64 on the wire but the ONNX checker requires
  them nonnegative, so they are modelled as Nat.
-/

set_option autoImplicit false

namespace StatefulCNN

/-- Scalar values decoded from a tensor: a 32-bit float is carried as its
IEEE-754 bit pattern, a 64-bit integer as its value. -/
inductive Scalar where
  | f32 (bits : Nat)
  | i64 (v : Int)
deriving DecidableEq, Repr

/-- The Python exceptions the embedded code can raise.  ShapeMismatch covers
both the scalar assertion (assert len(ret) == 1) and the np.reshape failure in
extract_data; StructError is struct.error from iter_unpack on a buffer whose
length is not a multiple of the format size; TypeError covers item assignment
on a 0-d value and feeding float values to an int64 protobuf field;
ConsistencyCheckFailed carries the external shape-inference diagnostic. -/
inductive Err where
  | UnsupportedDataType
  | ShapeMismatch
  | StructError
  | IndexError
  | TypeError
  | NotFound (name : String)
  | ConsistencyCheckFailed (diag : String)
deriving DecidableEq, Repr

/-- An ONNX initializer record (onnx.TensorProto).  Exactly the fields
extract_data and change_batch_size touch: float_data holds the bit patterns of
the stored float32 entries, int64_data the stored 64-bit integers, raw_data a
byte buffer (each entry < 256 in well-formed data). -/
structure TensorProto where
  name : String
  data_type : Nat
  dims : List Nat
  float_data : List Nat
  int64_data : List Int
  raw_data : List Nat
deriving DecidableEq, Repr

/-- onnx.TensorProto.FLOAT -/
def TensorProto.FLOAT : Nat := 1

/-- onnx.TensorProto.INT64 -/
def TensorProto.INT64 : Nat := 7

/-- Little-endian value of a byte list. -/
def leVal : List Nat → Nat
  | [] => 0
  | b :: bs => b + 256 * leVal bs

/-- The k little-endian bytes of n. -/
def bytesOf : Nat → Nat → List Nat
  | 0, _ => []
  | k + 1, n => n % 256 :: bytesOf k (n / 256)

/-- Two's-complement reading of a 64-bit word (struct format 'q'). -/
def toSigned64 (n : Nat) : Int :=
  if n < 2 ^ 63 then (n : Int) else (n : Int) - 2 ^ 64

def unpackAllGo (w : Nat) : Nat → List Nat → Option (List (List Nat))
  | _, [] => some []
  | 0, _ :: _ => none
  | fuel + 1, b :: bs =>
    if w ≤ (b :: bs).length then
      match unpackAllGo w fuel ((b :: bs).drop w) with
      | some chunks => some ((b :: bs).take w :: chunks)
      | none => none
    else
      none

/-- struct.iter_unpack: split a byte buffer into consecutive chunks of w bytes;
none models struct.error (buffer length not a multiple of w). -/
def unpackAll (w : Nat) (bs : List Nat) : Option (List (List Nat)) :=
  if w = 0 then none else unpackAllGo w bs.length bs

/-- Lines 172-183 of utils.py: pick the storage encoding of an initializer and
decode it to a flat value list.  Priority: the float_data field when the tag is
FLOAT and it is populated, then the int64_data field when the tag is INT64 and
it is populated, then raw_data unpacked with the format derived from the tag
('f' for FLOAT, 'q' for INT64); any other tag is a KeyError on the format
dictionary, i.e. UnsupportedDataType. -/
def decodeStorage (p : TensorProto) : Except Err (List Scalar) :=
  if p.data_type = TensorProto.FLOAT ∧ p.float_data ≠ [] then
    .ok (p.float_data.map Scalar.f32)
  else if p.data_type = TensorProto.INT64 ∧ p.int64_data ≠ [] then
    .ok (p.int64_data.map Scalar.i64)
  else if p.data_type = TensorProto.FLOAT then
    match unpackAll 4 p.raw_data with
    | some chunks => .ok (chunks.map (fun c => Scalar.f32 (leVal c)))
    | none => .error .StructError
  else if p.data_type = TensorProto.INT64 then
    match unpackAll 8 p.raw_data with
    | some chunks => .ok (chunks.map (fun c => Scalar.i64 (toSigned64 (leVal c))))
    | none => .error .StructError
  else
    .error .UnsupportedDataType

/-- Result of extract_data: a bare scalar (empty dims) or the flat decoded
sequence together with the declared shape it was reshaped into. -/
inductive ExtractResult where
  | scalar (s : Scalar)
  | tensor (dims : List Nat) (data : List Scalar)
deriving DecidableEq, Repr

/-- utils.extract_data (lines 172-191): decode the storage, then return a bare
scalar when dims is empty (asserting exactly one element) or np.reshape the
flat list into dims (which fails unless the element count equals the product
of the dims). -/
def extract_data (p : TensorProto) : Except Err ExtractResult :=
  match decodeStorage p with
  | .error e => .error e
  | .ok ret =>
    if p.dims = [] then
      match ret with
      | [r] => .ok (.scalar r)
      | _ => .error .ShapeMismatch
    else if ret.length = p.dims.prod then
      .ok (.tensor p.dims ret)
    else
      .error .ShapeMismatch

/-- A shape dimension (onnx Dimension): a fixed value, a symbolic name, or
unset. -/
inductive Dim where
  | unset
  | value (v : Int)
  | param (p : String)
deriving DecidableEq, Repr

/-- onnx.ValueInfoProto, flattened to the parts the code reads and writes:
the name and type.tensor_type.shape.dim. -/
structure ValueInfoProto where
  name : String
  dim : List Dim
deriving DecidableEq, Repr

/-- onnx.NodeProto: operator tag plus input and output name lists. -/
structure NodeProto where
  op_type : String
  input : List String
  output : List String
deriving DecidableEq, Repr

/-- onnx.GraphProto, restricted to the collections utils.py touches. -/
structure GraphProto where
  node : List NodeProto
  initializer : List TensorProto
  input : List ValueInfoProto
  output : List ValueInfoProto
  value_info : List ValueInfoProto
deriving DecidableEq, Repr

/-- onnx.ModelProto. -/
structure ModelProto where
  graph : GraphProto
deriving DecidableEq, Repr

/-- First initializer with the given name in a list (the loop body of
utils.find_initializer). -/
def findInit (inits : List TensorProto) (nm : String) : Option TensorProto :=
  inits.find? (fun t => t.name == nm)

/-- utils.find_initializer (lines 193-196): first match by name, absence is the
legal outcome None. -/
def find_initializer (m : ModelProto) (nm : String) : Option TensorProto :=
  findInit m.graph.initializer nm

/-- The search pool of find_tensor_value_info, in source order:
itertools.chain(g.value_info, g.input, g.output). -/
def valueInfoPool (m : ModelProto) : List ValueInfoProto :=
  m.graph.value_info ++ m.graph.input ++ m.graph.output

/-- utils.find_tensor_value_info (lines 198-205): strip the reserved
"_before_merge" suffix when present, then return the first record of the pool
with the (stripped) name; raise ValueError - modelled NotFound - otherwise. -/
def find_tensor_value_info (m : ModelProto) (nm : String) : Except Err ValueInfoProto :=
  let nm2 := if nm.endsWith "_before_merge" then nm.dropRight "_before_merge".length else nm
  match (valueInfoPool m).find? (fun vi => vi.name == nm2) with
  | some vi => .ok vi
  | none => .error (.NotFound nm2)

/-- The batch_size argument of change_batch_size: Union[str, int]. -/
inductive BatchSize where
  | str (s : String)
  | int (v : Int)
deriving DecidableEq, Repr

/-- The dimension written into slot 0: dim_param for a str batch size,
dim_value for an int one. -/
def batchDim : BatchSize → Dim
  | .str s => .param s
  | .int v => .value v

/-- Loop body of lines 211-219: skip names that are initializers or Constant
outputs, otherwise overwrite dimension 0 of a nonempty shape with the batch
token. -/
def updateVI (iNames cNames : List String) (bs : BatchSize) (vi : ValueInfoProto) : ValueInfoProto :=
  if vi.name ∈ iNames ∨ vi.name ∈ cNames then vi
  else
    match vi.dim with
    | [] => vi
    | _ :: rest => ⟨vi.name, batchDim bs :: rest⟩

/-- Line 209: the set of initializer names (membership is all that is used). -/
def initializerNames (g : GraphProto) : List String :=
  g.initializer.map (fun t => t.name)

/-- Line 210: node.output[0] for every Constant node; a Constant node with an
empty output list is an IndexError. -/
def constantNames : List NodeProto → Except Err (List String)
  | [] => .ok []
  | n :: ns =>
    if n.op_type = "Constant" then
      match n.output with
      | [] => .error .IndexError
      | o :: _ => (constantNames ns).map (fun cs => o :: cs)
    else
      constantNames ns

/-- Lines 208-219 of change_batch_size: build the two name sets and rewrite
dimension 0 of every non-constant ValueInfo of value_info, input and output. -/
def phase1 (m : ModelProto) (bs : BatchSize) : Except Err ModelProto :=
  match constantNames m.graph.node with
  | .error e => .error e
  | .ok cNames =>
    .ok ⟨⟨m.graph.node, m.graph.initializer,
          m.graph.input.map (updateVI (initializerNames m.graph) cNames bs),
          m.graph.output.map (updateVI (initializerNames m.graph) cNames bs),
          m.graph.value_info.map (updateVI (initializerNames m.graph) cNames bs)⟩⟩

/-- The zero numpy writes on assignment of 0 into the decoded array: float zero
(bit pattern 0) into a float array, int64 zero into an int64 array.  The array
dtype agrees with the data-type tag on every decode path. -/
def zeroScalar (dataType : Nat) : Scalar :=
  if dataType = TensorProto.FLOAT then .f32 0 else .i64 0

/-- onnx.helper.make_tensor with data_type INT64 extends the int64_data field
with the supplied values; protobuf rejects float values for an int64 field with
a TypeError. -/
def toInt64Vals : List Scalar → Except Err (List Int)
  | [] => .ok []
  | .i64 v :: rest => (toInt64Vals rest).map (fun vs => v :: vs)
  | .f32 _ :: _ => .error .TypeError

/-- Lines 230-237 applied to one target-shape initializer t: decode it
(new_shape_value = extract_data(new_shape)), execute new_shape_value[0] = 0
(on a 0-d value this is a TypeError; on an array whose leading dimension is 0
an IndexError; otherwise numpy assigns zeros to the whole leading slice, i.e.
the first rest.prod flat entries), then rebuild the record via
onnx.helper.make_tensor(name=t.name, data_type=INT64,
dims=np.shape(new_shape_value), vals=new_shape_value).
The (.tensor [] _) case cannot be produced by extract_data and is mapped to
the same error as the scalar case. -/
def patchTensor (t : TensorProto) : Except Err TensorProto :=
  match extract_data t with
  | .error e => .error e
  | .ok (.scalar _) => .error .TypeError
  | .ok (.tensor [] _) => .error .TypeError
  | .ok (.tensor (d0 :: rest) data) =>
    if d0 = 0 then
      .error .IndexError
    else
      match toInt64Vals (List.replicate rest.prod (zeroScalar t.data_type) ++ data.drop rest.prod) with
      | .error e => .error e
      | .ok vals => .ok ⟨t.name, TensorProto.INT64, d0 :: rest, [], vals, []⟩

/-- new_shape.CopyFrom(...) overwrites, in place, the record
find_initializer returned: the first initializer with that name. -/
def replaceFirst (inits : List TensorProto) (nm : String) (t2 : TensorProto) : List TensorProto :=
  match inits with
  | [] => []
  | t :: ts => if t.name = nm then t2 :: ts else t :: replaceFirst ts nm t2

/-- Loop body of lines 222-237 for one node: only Reshape nodes are considered;
a node whose first input (node.input[0]) names an initializer is skipped; a
node whose second input (node.input[1]) names no initializer is skipped;
otherwise that target-shape initializer is patched in place.  Indexing an
absent input is an IndexError, in source evaluation order. -/
def processNode (inits : List TensorProto) (n : NodeProto) : Except Err (List TensorProto) :=
  if n.op_type = "Reshape" then
    match n.input with
    | [] => .error .IndexError
    | i0 :: rest0 =>
      match findInit inits i0 with
      | some _ => .ok inits
      | none =>
        match rest0 with
        | [] => .error .IndexError
        | i1 :: _ =>
          match findInit inits i1 with
          | none => .ok inits
          | some t =>
            match patchTensor t with
            | .error e => .error e
            | .ok t2 => .ok (replaceFirst inits i1 t2)
  else
    .ok inits

/-- Lines 221-237: the Reshape loop over all nodes, threading the initializer
list; an exception surfaces together with the state reached so far. -/
def phase2 (nodes : List NodeProto) (inits : List TensorProto) :
    Except (Err × List TensorProto) (List TensorProto) :=
  match nodes with
  | [] => .ok inits
  | n :: ns =>
    match processNode inits n with
    | .error e => .error (e, inits)
    | .ok inits2 => phase2 ns inits2

/-- Replace the initializer list of a model (the in-place mutations of the
Reshape loop, seen from the whole model). -/
def setInits (m : ModelProto) (inits : List TensorProto) : ModelProto :=
  ⟨⟨m.graph.node, inits, m.graph.input, m.graph.output, m.graph.value_info⟩⟩

/-- Lines 208-237: both mutation phases of change_batch_size; the Reshape loop
runs only for a str batch size (isinstance(batch_size, str)).  An error carries
the model state at the moment it is raised. -/
def mutateModel (m : ModelProto) (bs : BatchSize) : Except (Err × ModelProto) ModelProto :=
  match phase1 m bs with
  | .error e => .error (e, m)
  | .ok m1 =>
    match bs with
    | .int _ => .ok m1
    | .str _ =>
      match phase2 m1.graph.node m1.graph.initializer with
      | .error (e, inits) => .error (e, setInits m1 inits)
      | .ok inits => .ok (setInits m1 inits)

/-- utils.change_batch_size (lines 207-240).  The final
onnx.shape_inference.infer_shapes call is the external consistency checker,
passed in as a capability; its failure is surfaced as-is with the model left
mutated. -/
def change_batch_size (checker : ModelProto → Except String Unit) (m : ModelProto)
    (bs : BatchSize) : Except (Err × ModelProto) ModelProto :=
  match mutateModel m bs with
  | .error em => .error em
  | .ok m2 =>
    match checker m2 with
    | .error d => .error (.ConsistencyCheckFailed d, m2)
    | .ok _ => .ok m2

/-- Flat byte encoding of a value list, element by element. -/
def encodeAll {α : Type} (enc : α → List Nat) : List α → List Nat
  | [] => []
  | v :: vs => enc v ++ encodeAll enc vs

/-- The 8 little-endian bytes struct.pack('q', v) produces. -/
def encodeI64 (v : Int) : List Nat :=
  bytesOf 8 (v % (2 : Int) ^ 64).toNat

/-- A FLOAT tensor stored in the float_data field. -/
def floatSeqInit (nm : String) (dims : List Nat) (pats : List Nat) : TensorProto :=
  ⟨nm, TensorProto.FLOAT, dims, pats, [], []⟩

/-- The same FLOAT tensor stored in the raw_data field ('f' format, 4-byte
little-endian entries). -/
def floatRawInit (nm : String) (dims : List Nat) (pats : List Nat) : TensorProto :=
  ⟨nm, TensorProto.FLOAT, dims, [], [], encodeAll (bytesOf 4) pats⟩

/-- An INT64 tensor stored in the int64_data field. -/
def int64SeqInit (nm : String) (dims : List Nat) (vs : List Int) : TensorProto :=
  ⟨nm, TensorProto.INT64, dims, [], vs, []⟩

/-- The same INT64 tensor stored in the raw_data field ('q' format, 8-byte
little-endian two's-complement entries). -/
def int64RawInit (nm : String) (dims : List Nat) (vs : List Int) : TensorProto :=
  ⟨nm, TensorProto.INT64, dims, [], [], encodeAll encodeI64 vs⟩

theorem bytesOf_length (k n : Nat) : (bytesOf k n).length = k := by
  induction k generalizing n with
  | zero => rfl
  | succ k ih => simp [bytesOf, ih]

theorem leVal_bytesOf (k n : Nat) (h : n < 256 ^ k) : leVal (bytesOf k n) = n := by
  induction k generalizing n with
  | zero =>
    simp only [Nat.pow_zero, Nat.lt_one_iff] at h
    simp [bytesOf, leVal, h]
  | succ k ih =>
    have h2 : n / 256 < 256 ^ k := by
      rw [Nat.div_lt_iff_lt_mul (by norm_num)]
      calc n < 256 ^ (k + 1) := h
        _ = 256 ^ k * 256 := by ring
    simp only [bytesOf, leVal, ih _ h2]
    omega

theorem toSigned64_mod (v : Int) (h1 : -(2 ^ 63) ≤ v) (h2 : v < 2 ^ 63) :
    toSigned64 (v % (2 : Int) ^ 64).toNat = v := by
  have hmod : 0 ≤ v % (2 : Int) ^ 64 := Int.emod_nonneg v (by norm_num)
  have hcast : ((v % (2 : Int) ^ 64).toNat : Int) = v % (2 : Int) ^ 64 :=
    Int.toNat_of_nonneg hmod
  have hv64 : v % (2 : Int) ^ 64 = v % 18446744073709551616 := by norm_num
  have h1' : -9223372036854775808 ≤ v := le_trans (by norm_num) h1
  have h2' : v < 9223372036854775808 := lt_of_lt_of_le h2 (by norm_num)
  unfold toSigned64
  split_ifs with hc
  · rw [hcast, hv64]
    have hcZ : ((v % (2 : Int) ^ 64).toNat : Int) < 9223372036854775808 := by
      have hstep := Int.ofNat_lt.mpr hc
      exact lt_of_lt_of_le hstep (by norm_num)
    rw [hcast, hv64] at hcZ
    omega
  · rw [hcast, hv64]
    have hcZ : (9223372036854775808 : Int) ≤ ((v % (2 : Int) ^ 64).toNat : Int) := by
      have hstep := Int.ofNat_le.mpr (Nat.le_of_not_lt hc)
      exact le_trans (by norm_num) hstep
    rw [hcast, hv64] at hcZ
    have he : (2 : Int) ^ 64 = 18446744073709551616 := by norm_num
    rw [he]
    omega

theorem decode_encodeI64 (v : Int) (h1 : -(2 ^ 63) ≤ v) (h2 : v < 2 ^ 63) :
    toSigned64 (leVal (encodeI64 v)) = v := by
  unfold encodeI64
  rw [leVal_bytesOf 8 _ ?_]
  · exact toSigned64_mod v h1 h2
  · have hlt : v % (2 : Int) ^ 64 < 2 ^ 64 := Int.emod_lt_of_pos v (by norm_num)
    have : (256 : Nat) ^ 8 = 2 ^ 64 := by norm_num
    rw [this]
    have hmod : 0 ≤ v % (2 : Int) ^ 64 := Int.emod_nonneg v (by norm_num)
    omega

theorem unpackAllGo_encodeAll {α : Type} (w : Nat) (hw : 0 < w) (enc : α → List Nat)
    (henc : ∀ v, (enc v).length = w) :
    ∀ (vs : List α) (fuel : Nat), (encodeAll enc vs).length ≤ fuel →
      unpackAllGo w fuel (encodeAll enc vs) = some (vs.map enc) := by
  intro vs
  induction vs with
  | nil => intro fuel _; simp [encodeAll, unpackAllGo]
  | cons v vs ih =>
    intro fuel hfuel
    have hunf : encodeAll enc (v :: vs) = enc v ++ encodeAll enc vs := rfl
    rw [hunf] at hfuel ⊢
    obtain ⟨b, t, hb⟩ : ∃ b t, enc v = b :: t := by
      cases h : enc v with
      | nil => exfalso; have hl := henc v; rw [h] at hl; simp at hl; omega
      | cons b t => exact ⟨b, t, rfl⟩
    have hlen : (enc v ++ encodeAll enc vs).length = w + (encodeAll enc vs).length := by
      simp [henc v]
    cases fuel with
    | zero => exfalso; rw [hlen] at hfuel; omega
    | succ f =>
      have hev : b :: (t ++ encodeAll enc vs) = enc v ++ encodeAll enc vs := by
        rw [hb, List.cons_append]
      rw [← hev]
      have hcond : w ≤ (b :: (t ++ encodeAll enc vs)).length := by
        rw [hev, hlen]; omega
      have hdrop : (b :: (t ++ encodeAll enc vs)).drop w = encodeAll enc vs := by
        rw [hev]; exact List.drop_left' (henc v)
      have htake : (b :: (t ++ encodeAll enc vs)).take w = enc v := by
        rw [hev]; exact List.take_left' (henc v)
      have hih : unpackAllGo w f (encodeAll enc vs) = some (vs.map enc) := by
        apply ih
        rw [hlen] at hfuel
        omega
      simp only [unpackAllGo]
      rw [if_pos hcond, hdrop, hih, htake]
      simp

theorem unpackAll_encodeAll {α : Type} (w : Nat) (hw : 0 < w) (enc : α → List Nat)
    (henc : ∀ v, (enc v).length = w) (vs : List α) :
    unpackAll w (encodeAll enc vs) = some (vs.map enc) := by
  unfold unpackAll
  rw [if_neg (Nat.pos_iff_ne_zero.mp hw)]
  exact unpackAllGo_encodeAll w hw enc henc vs _ le_rfl

theorem decodeStorage_floatSeq (nm : String) (dims : List Nat) (pats : List Nat) :
    decodeStorage (floatSeqInit nm dims pats) = .ok (pats.map Scalar.f32) := by
  cases pats with
  | nil =>
    simp [decodeStorage, floatSeqInit, TensorProto.FLOAT, TensorProto.INT64,
      unpackAll, unpackAllGo]
  | cons b bs =>
    simp [decodeStorage, floatSeqInit, TensorProto.FLOAT, TensorProto.INT64]

theorem decodeStorage_floatRaw (nm : String) (dims : List Nat) (pats : List Nat)
    (hp : ∀ b ∈ pats, b < 2 ^ 32) :
    decodeStorage (floatRawInit nm dims pats) = .ok (pats.map Scalar.f32) := by
  have hu : unpackAll 4 (encodeAll (bytesOf 4) pats) = some (pats.map (bytesOf 4)) :=
    unpackAll_encodeAll 4 (by norm_num) _ (fun v => bytesOf_length 4 v) pats
  simp only [decodeStorage, floatRawInit, TensorProto.FLOAT, TensorProto.INT64, hu]
  norm_num
  intro b hbmem
  apply leVal_bytesOf
  have h32 : (256 : Nat) ^ 4 = 2 ^ 32 := by norm_num
  rw [h32]
  exact hp b hbmem

theorem decodeStorage_int64Seq (nm : String) (dims : List Nat) (vs : List Int) :
    decodeStorage (int64SeqInit nm dims vs) = .ok (vs.map Scalar.i64) := by
  cases vs with
  | nil =>
    simp [decodeStorage, int64SeqInit, TensorProto.FLOAT, TensorProto.INT64,
      unpackAll, unpackAllGo]
  | cons v vs =>
    simp [decodeStorage, int64SeqInit, TensorProto.FLOAT, TensorProto.INT64]

theorem decodeStorage_int64Raw (nm : String) (dims : List Nat) (vs : List Int)
    (hv : ∀ v ∈ vs, -(2 ^ 63) ≤ v ∧ v < 2 ^ 63) :
    decodeStorage (int64RawInit nm dims vs) = .ok (vs.map Scalar.i64) := by
  have hlen : ∀ v : Int, (encodeI64 v).length = 8 := fun v => bytesOf_length 8 _
  have hu : unpackAll 8 (encodeAll encodeI64 vs) = some (vs.map encodeI64) :=
    unpackAll_encodeAll 8 (by norm_num) _ hlen vs
  simp only [decodeStorage, int64RawInit, TensorProto.FLOAT, TensorProto.INT64, hu]
  norm_num
  intro v hvmem
  exact decode_encodeI64 v (hv v hvmem).1 (hv v hvmem).2

theorem extract_congr (p q : TensorProto) (hd : p.dims = q.dims)
    (hs : decodeStorage p = decodeStorage q) : extract_data p = extract_data q := by
  unfold extract_data
  rw [hs, hd]

/-- C5: for every logical tensor (fixed contents and shape, data type FLOAT or
INT64), decoding via extract_data yields identical numeric output whichever
storage encoding is used: the flat float sequence versus the raw byte buffer
unpacked as 4-byte floats, and the flat int64 sequence versus the raw byte
buffer unpacked as 8-byte integers.  The hypotheses say the contents are
genuine float32 bit patterns / int64 values, which every tensor produced by
protobuf satisfies. -/
theorem tensor_decoding_roundtrip (nm nm2 : String) (dims dims2 : List Nat)
    (pats : List Nat) (vs : List Int)
    (hp : ∀ b ∈ pats, b < 2 ^ 32) (hv : ∀ v ∈ vs, -(2 ^ 63) ≤ v ∧ v < 2 ^ 63) :
    extract_data (floatSeqInit nm dims pats) = extract_data (floatRawInit nm dims pats) ∧
    extract_data (int64SeqInit nm2 dims2 vs) = extract_data (int64RawInit nm2 dims2 vs) := by
  constructor
  · refine extract_congr (floatSeqInit nm dims pats) (floatRawInit nm dims pats) rfl ?_
    rw [decodeStorage_floatSeq, decodeStorage_floatRaw _ _ _ hp]
  · refine extract_congr (int64SeqInit nm2 dims2 vs) (int64RawInit nm2 dims2 vs) rfl ?_
    rw [decodeStorage_int64Seq, decodeStorage_int64Raw _ _ _ hv]

theorem tensor_decoding_roundtrip_witness :
    extract_data (floatSeqInit "w" [2] [1, 5]) = extract_data (floatRawInit "w" [2] [1, 5]) ∧
    extract_data (int64SeqInit "s" [2] [10, -1]) = extract_data (int64RawInit "s" [2] [10, -1]) :=
  tensor_decoding_roundtrip "w" "s" [2] [2] [1, 5] [10, -1]
    (by intro b hb; fin_cases hb <;> norm_num)
    (by intro v hv; fin_cases hv <;> norm_num)

/-- C7: for an initializer whose dims is the empty sequence, extract_data
returns the single decoded element as a bare scalar when exactly one element
is stored, and fails with ShapeMismatch (the failed assertion of line 188)
when the number of decoded elements is not one.  The hypothesis fixes a
successful storage decode, which the claim presupposes by speaking of the
decoded elements. -/
theorem extract_data_scalar_spec (p : TensorProto) (ret : List Scalar)
    (hdims : p.dims = []) (hdec : decodeStorage p = .ok ret) :
    (∀ r, ret = [r] → extract_data p = .ok (.scalar r)) ∧
    (ret.length ≠ 1 → extract_data p = .error .ShapeMismatch) := by
  constructor
  · intro r hr
    unfold extract_data
    rw [hdec, hr]
    simp [hdims]
  · intro hl
    unfold extract_data
    rw [hdec]
    simp only [hdims, if_pos]
    rcases ret with _ | ⟨r, _ | ⟨r2, rest⟩⟩ <;> simp_all

theorem extract_data_scalar_witness :
    extract_data (int64SeqInit "s" [] [5]) = .ok (.scalar (.i64 5)) ∧
    extract_data (int64SeqInit "t" [] [5, 6]) = .error .ShapeMismatch := by
  constructor
  · exact (extract_data_scalar_spec (int64SeqInit "s" [] [5]) [Scalar.i64 5] rfl
      (decodeStorage_int64Seq "s" [] [5])).1 (Scalar.i64 5) rfl
  · exact (extract_data_scalar_spec (int64SeqInit "t" [] [5, 6]) [Scalar.i64 5, Scalar.i64 6] rfl
      (decodeStorage_int64Seq "t" [] [5, 6])).2 (by norm_num)

theorem decodeStorage_unsupported_iff (p : TensorProto) :
    decodeStorage p = .error .UnsupportedDataType ↔
      p.data_type ≠ TensorProto.FLOAT ∧ p.data_type ≠ TensorProto.INT64 := by
  unfold decodeStorage
  split_ifs with h1 h2 h3 h4
  · simp [h1.1]
  · simp [h2.1]
  · cases hu : unpackAll 4 p.raw_data <;> simp [h3]
  · cases hu : unpackAll 8 p.raw_data <;> simp [h4]
  · simp only [not_and_or] at h1 h2
    constructor
    · intro _
      exact ⟨h3, h4⟩
    · intro _
      rfl

/-- C8: extract_data fails with UnsupportedDataType exactly when the data-type
tag is neither FLOAT nor INT64; for those two tags, whatever else happens, no
such error is raised. -/
theorem extract_data_unsupported_iff (p : TensorProto) :
    extract_data p = .error .UnsupportedDataType ↔
      p.data_type ≠ TensorProto.FLOAT ∧ p.data_type ≠ TensorProto.INT64 := by
  constructor
  · intro h
    unfold extract_data at h
    cases hd : decodeStorage p with
    | error e =>
      rw [hd] at h
      have he : e = Err.UnsupportedDataType := by simpa using h
      rw [he] at hd
      exact (decodeStorage_unsupported_iff p).mp hd
    | ok ret =>
      rw [hd] at h
      dsimp only at h
      by_cases h5 : p.dims = []
      · rw [if_pos h5] at h
        rcases ret with _ | ⟨r, _ | ⟨r2, rest⟩⟩ <;> simp_all
      · rw [if_neg h5] at h
        by_cases h6 : ret.length = p.dims.prod
        · rw [if_pos h6] at h
          simp_all
        · rw [if_neg h6] at h
          simp_all
  · intro hcond
    have hd : decodeStorage p = .error .UnsupportedDataType :=
      (decodeStorage_unsupported_iff p).mpr hcond
    unfold extract_data
    rw [hd]

/-- The suffix-stripping step of find_tensor_value_info (line 199-200). -/
def stripSuffix (nm : String) : String :=
  if nm.endsWith "_before_merge" then nm.dropRight "_before_merge".length else nm

theorem find_tensor_value_info_eq (m : ModelProto) (nm : String) :
    find_tensor_value_info m nm =
      match (valueInfoPool m).find? (fun vi => vi.name == stripSuffix nm) with
      | some vi => .ok vi
      | none => .error (.NotFound (stripSuffix nm)) := rfl

/-- C9: find_tensor_value_info first strips the reserved "_before_merge"
suffix when present, then scans value_info, then inputs, then outputs (the
pool, in that concatenation order) and returns the first record whose name
matches; it fails with NotFound exactly when no record in any of the three
collections matches. -/
theorem find_tensor_value_info_spec (m : ModelProto) (nm : String) :
    (∀ vi, find_tensor_value_info m nm = .ok vi ↔
      vi.name = stripSuffix nm ∧
      ∃ l1 l2, valueInfoPool m = l1 ++ vi :: l2 ∧ ∀ u ∈ l1, u.name ≠ stripSuffix nm) ∧
    (find_tensor_value_info m nm = .error (.NotFound (stripSuffix nm)) ↔
      ∀ vi ∈ valueInfoPool m, vi.name ≠ stripSuffix nm) := by
  constructor
  · intro vi
    have hiff : find_tensor_value_info m nm = .ok vi ↔
        (valueInfoPool m).find? (fun u => u.name == stripSuffix nm) = some vi := by
      rw [find_tensor_value_info_eq]
      cases hf : (valueInfoPool m).find? (fun u => u.name == stripSuffix nm) with
      | none => simp
      | some u => simp
    rw [hiff, List.find?_eq_some]
    constructor
    · rintro ⟨hpv, l1, l2, hsplit, hl1⟩
      refine ⟨by simpa using hpv, l1, l2, hsplit, ?_⟩
      intro u hu
      have := hl1 u hu
      simpa using this
    · rintro ⟨hname, l1, l2, hsplit, hl1⟩
      refine ⟨by simpa using hname, l1, l2, hsplit, ?_⟩
      intro u hu
      have := hl1 u hu
      simpa using this
  · rw [find_tensor_value_info_eq]
    cases hf : (valueInfoPool m).find? (fun u => u.name == stripSuffix nm) with
    | none =>
      simp only []
      rw [List.find?_eq_none] at hf
      constructor
      · intro _ vi hvi
        simpa using hf vi hvi
      · intro _
        trivial
    | some u =>
      simp only []
      constructor
      · intro h; exact absurd h (by simp)
      · intro hall
        exfalso
        have hmem := List.mem_of_find?_eq_some hf
        have hpu := List.find?_some hf
        exact hall u hmem (by simpa using hpu)

theorem findInit_name (I : List TensorProto) (c : String) (t : TensorProto)
    (h : findInit I c = some t) : t.name = c := by
  have := List.find?_some h
  simpa using this

theorem findInit_cons_pos (u : TensorProto) (ts : List TensorProto) (nm : String)
    (h : u.name = nm) : findInit (u :: ts) nm = some u := by
  unfold findInit
  rw [List.find?_cons, show (u.name == nm) = true from by simp [h]]

theorem findInit_cons_neg (u : TensorProto) (ts : List TensorProto) (nm : String)
    (h : u.name ≠ nm) : findInit (u :: ts) nm = findInit ts nm := by
  unfold findInit
  rw [List.find?_cons, show (u.name == nm) = false from by simp [h]]

theorem findInit_eq_none_iff (I : List TensorProto) (c : String) :
    findInit I c = none ↔ ∀ t ∈ I, t.name ≠ c := by
  unfold findInit
  rw [List.find?_eq_none]
  simp

theorem findInit_none_of_names (I J : List TensorProto) (c : String)
    (hn : I.map (fun t => t.name) = J.map (fun t => t.name))
    (h : findInit I c = none) : findInit J c = none := by
  rw [findInit_eq_none_iff] at h ⊢
  intro t ht
  have hmem : t.name ∈ J.map (fun t => t.name) := List.mem_map_of_mem _ ht
  rw [← hn] at hmem
  obtain ⟨u, hu, he⟩ := List.mem_map.mp hmem
  rw [← he]
  exact h u hu

theorem findInit_some_of_names (I J : List TensorProto) (c : String) (t : TensorProto)
    (hn : I.map (fun t => t.name) = J.map (fun t => t.name))
    (h : findInit I c = some t) : ∃ u, findInit J c = some u := by
  cases hf : findInit J c with
  | some u => exact ⟨u, rfl⟩
  | none =>
    exfalso
    have hnone := findInit_none_of_names J I c hn.symm hf
    rw [hnone] at h
    exact absurd h (by simp)

theorem replaceFirst_map_name (I : List TensorProto) (nm : String) (t2 : TensorProto)
    (h : t2.name = nm) :
    (replaceFirst I nm t2).map (fun t => t.name) = I.map (fun t => t.name) := by
  induction I with
  | nil => rfl
  | cons t ts ih =>
    unfold replaceFirst
    by_cases ht : t.name = nm
    · rw [if_pos ht]
      simp [h, ht]
    · rw [if_neg ht]
      simp [ih]

theorem replaceFirst_findInit_self (I : List TensorProto) (nm : String) (t2 : TensorProto)
    (h2 : t2.name = nm) (t : TensorProto) (h : findInit I nm = some t) :
    findInit (replaceFirst I nm t2) nm = some t2 := by
  induction I with
  | nil => exact absurd h (by simp [findInit])
  | cons u ts ih =>
    unfold replaceFirst
    by_cases hu : u.name = nm
    · rw [if_pos hu]
      exact findInit_cons_pos t2 ts nm h2
    · rw [if_neg hu]
      have h' : findInit ts nm = some t := by
        rw [findInit_cons_neg u ts nm hu] at h
        exact h
      rw [findInit_cons_neg u _ nm hu]
      exact ih h'

theorem replaceFirst_findInit_other (I : List TensorProto) (nm : String) (t2 : TensorProto)
    (h2 : t2.name = nm) (c : String) (hc : c ≠ nm) :
    findInit (replaceFirst I nm t2) c = findInit I c := by
  induction I with
  | nil => rfl
  | cons u ts ih =>
    unfold replaceFirst
    by_cases hu : u.name = nm
    · rw [if_pos hu]
      have hp1 : t2.name ≠ c := by rw [h2]; exact fun he => hc he.symm
      have hp2 : u.name ≠ c := by rw [hu]; exact fun he => hc he.symm
      rw [findInit_cons_neg t2 ts c hp1, findInit_cons_neg u ts c hp2]
    · rw [if_neg hu]
      by_cases hus : u.name = c
      · rw [findInit_cons_pos u _ c hus, findInit_cons_pos u ts c hus]
      · rw [findInit_cons_neg u _ c hus, findInit_cons_neg u ts c hus]
        exact ih

theorem replaceFirst_eq_self (I : List TensorProto) (nm : String) (t : TensorProto)
    (h : findInit I nm = some t) : replaceFirst I nm t = I := by
  induction I with
  | nil => rfl
  | cons u ts ih =>
    unfold replaceFirst
    by_cases hu : u.name = nm
    · rw [if_pos hu]
      rw [findInit_cons_pos u ts nm hu] at h
      have hut : u = t := Option.some.inj h
      rw [hut]
    · rw [if_neg hu]
      have h' : findInit ts nm = some t := by
        rw [findInit_cons_neg u ts nm hu] at h
        exact h
      rw [ih h']

theorem toInt64Vals_ok (l : List Scalar) (vs : List Int) (h : toInt64Vals l = .ok vs) :
    l = vs.map Scalar.i64 := by
  induction l generalizing vs with
  | nil =>
    unfold toInt64Vals at h
    injection h with h
    rw [← h]
    rfl
  | cons s rest ih =>
    cases s with
    | f32 b => exact absurd h (by simp [toInt64Vals])
    | i64 v =>
      unfold toInt64Vals at h
      cases hr : toInt64Vals rest with
      | error e => rw [hr] at h; exact absurd h (by simp [Except.map])
      | ok vs0 =>
        rw [hr] at h
        simp only [Except.map] at h
        injection h with h
        rw [← h]
        simp [ih vs0 hr]

theorem toInt64Vals_map (vs : List Int) : toInt64Vals (vs.map Scalar.i64) = .ok vs := by
  induction vs with
  | nil => rfl
  | cons v rest ih => simp [toInt64Vals, ih, Except.map]

theorem extract_data_tensor_inv (p : TensorProto) (dims : List Nat) (data : List Scalar)
    (h : extract_data p = .ok (.tensor dims data)) :
    dims = p.dims ∧ p.dims ≠ [] ∧ data.length = p.dims.prod ∧ decodeStorage p = .ok data := by
  unfold extract_data at h
  cases hd : decodeStorage p with
  | error e => rw [hd] at h; exact absurd h (by simp)
  | ok ret =>
    rw [hd] at h
    dsimp only at h
    by_cases h5 : p.dims = []
    · rw [if_pos h5] at h
      rcases ret with _ | ⟨r, _ | _⟩ <;> simp_all
    · rw [if_neg h5] at h
      by_cases h6 : ret.length = p.dims.prod
      · rw [if_pos h6] at h
        simp only [Except.ok.injEq, ExtractResult.tensor.injEq] at h
        exact ⟨h.1.symm, h5, by rw [← h.2]; exact h6, by rw [h.2]⟩
      · rw [if_neg h6] at h
        exact absurd h (by simp)

theorem extract_data_of_parts (p : TensorProto) (l : List Scalar)
    (hd : decodeStorage p = .ok l) (hne : p.dims ≠ []) (hl : l.length = p.dims.prod) :
    extract_data p = .ok (.tensor p.dims l) := by
  unfold extract_data
  rw [hd]
  dsimp only
  rw [if_neg hne, if_pos hl]

theorem patchTensor_ok_inv (t t2 : TensorProto) (h : patchTensor t = .ok t2) :
    ∃ d0 rest data vals,
      extract_data t = .ok (.tensor (d0 :: rest) data) ∧ d0 ≠ 0 ∧
      toInt64Vals (List.replicate rest.prod (zeroScalar t.data_type) ++
        data.drop rest.prod) = .ok vals ∧
      t2 = ⟨t.name, TensorProto.INT64, d0 :: rest, [], vals, []⟩ := by
  unfold patchTensor at h
  cases he : extract_data t with
  | error e => rw [he] at h; exact absurd h (by simp)
  | ok res =>
    rw [he] at h
    cases res with
    | scalar s => exact absurd h (by simp)
    | tensor dims data =>
      cases dims with
      | nil => exact absurd h (by simp)
      | cons d0 rest =>
        dsimp only at h
        by_cases h0 : d0 = 0
        · rw [if_pos h0] at h
          exact absurd h (by simp)
        · rw [if_neg h0] at h
          cases hv : toInt64Vals (List.replicate rest.prod (zeroScalar t.data_type) ++
              data.drop rest.prod) with
          | error e => rw [hv] at h; exact absurd h (by simp)
          | ok vals =>
            rw [hv] at h
            refine ⟨d0, rest, data, vals, rfl, h0, hv, ?_⟩
            injection h with h
            exact h.symm

theorem patchTensor_name (t t2 : TensorProto) (h : patchTensor t = .ok t2) :
    t2.name = t.name := by
  obtain ⟨d0, rest, data, vals, _, _, _, ht⟩ := patchTensor_ok_inv t t2 h
  rw [ht]

theorem patchTensor_idem (t t2 : TensorProto) (h : patchTensor t = .ok t2) :
    patchTensor t2 = .ok t2 := by
  obtain ⟨d0, rest, data, vals, hex, h0, hvals, ht2⟩ := patchTensor_ok_inv t t2 h
  obtain ⟨hdims, hne, hlen, hdec⟩ := extract_data_tensor_inv t _ _ hex
  have hdata' : List.replicate rest.prod (zeroScalar t.data_type) ++ data.drop rest.prod
      = vals.map Scalar.i64 := toInt64Vals_ok _ _ hvals
  have hrle : rest.prod ≤ data.length := by
    rw [hlen, ← hdims, List.prod_cons]
    have h1 : 1 ≤ d0 := Nat.one_le_iff_ne_zero.mpr h0
    calc rest.prod = 1 * rest.prod := (Nat.one_mul _).symm
      _ ≤ d0 * rest.prod := Nat.mul_le_mul_right _ h1
  have hlen2 : (vals.map Scalar.i64).length = (d0 :: rest).prod := by
    rw [← hdata']
    simp only [List.length_append, List.length_replicate, List.length_drop]
    rw [Nat.add_sub_cancel' hrle, hlen, ← hdims]
  have hdec2 : decodeStorage t2 = .ok (vals.map Scalar.i64) := by
    rw [ht2]
    exact decodeStorage_int64Seq t.name (d0 :: rest) vals
  have hex2 : extract_data t2 = .ok (.tensor (d0 :: rest) (vals.map Scalar.i64)) := by
    have hp := extract_data_of_parts t2 (vals.map Scalar.i64) hdec2
      (by rw [ht2]; exact fun hx => List.noConfusion hx)
      (by rw [ht2]; exact hlen2)
    rw [ht2] at hp ⊢
    exact hp
  have hdrop : (vals.map Scalar.i64).drop rest.prod = data.drop rest.prod := by
    rw [← hdata']
    exact List.drop_left' (List.length_replicate _ _)
  have hz : zeroScalar TensorProto.INT64 = Scalar.i64 0 := by
    unfold zeroScalar
    rw [if_neg (by simp [TensorProto.INT64, TensorProto.FLOAT])]
  have hblock : List.replicate rest.prod (zeroScalar TensorProto.INT64)
      = List.replicate rest.prod (zeroScalar t.data_type) := by
    cases hr : rest.prod with
    | zero => rfl
    | succ r1 =>
      have hzmem : zeroScalar t.data_type ∈ vals.map Scalar.i64 := by
        rw [← hdata']
        apply List.mem_append_left
        rw [hr]
        exact List.mem_replicate.mpr ⟨Nat.succ_ne_zero r1, rfl⟩
      obtain ⟨w, hwmem, hw⟩ := List.mem_map.mp hzmem
      by_cases hft : t.data_type = TensorProto.FLOAT
      · exfalso
        unfold zeroScalar at hw
        rw [if_pos hft] at hw
        exact Scalar.noConfusion hw
      · rw [hz]
        unfold zeroScalar
        rw [if_neg hft]
  unfold patchTensor
  rw [hex2]
  dsimp only
  rw [if_neg h0]
  have hdt : t2.data_type = TensorProto.INT64 := by rw [ht2]
  rw [hdt]
  have hfull : List.replicate rest.prod (zeroScalar TensorProto.INT64) ++
      (vals.map Scalar.i64).drop rest.prod = vals.map Scalar.i64 := by
    rw [hdrop, hblock, hdata']
  rw [hfull, toInt64Vals_map]
  dsimp only
  rw [ht2]

theorem processNode_not_reshape (I : List TensorProto) (n : NodeProto)
    (h : n.op_type ≠ "Reshape") : processNode I n = .ok I := by
  simp [processNode, h]

theorem processNode_skip_init (I : List TensorProto) (n : NodeProto) (i0 : String)
    (rest0 : List String) (t : TensorProto) (hop : n.op_type = "Reshape")
    (hin : n.input = i0 :: rest0) (hf : findInit I i0 = some t) :
    processNode I n = .ok I := by
  simp [processNode, hop, hin, hf]

theorem processNode_skip_noshape (I : List TensorProto) (n : NodeProto) (i0 i1 : String)
    (rest : List String) (hop : n.op_type = "Reshape") (hin : n.input = i0 :: i1 :: rest)
    (hf0 : findInit I i0 = none) (hf1 : findInit I i1 = none) :
    processNode I n = .ok I := by
  simp [processNode, hop, hin, hf0, hf1]

theorem processNode_patch (I : List TensorProto) (n : NodeProto) (i0 i1 : String)
    (rest : List String) (t t2 : TensorProto) (hop : n.op_type = "Reshape")
    (hin : n.input = i0 :: i1 :: rest) (hf0 : findInit I i0 = none)
    (hf1 : findInit I i1 = some t) (hp : patchTensor t = .ok t2) :
    processNode I n = .ok (replaceFirst I i1 t2) := by
  simp [processNode, hop, hin, hf0, hf1, hp]

theorem processNode_ok_inv (I I2 : List TensorProto) (n : NodeProto)
    (h : processNode I n = .ok I2) :
    (n.op_type ≠ "Reshape" ∧ I2 = I) ∨
    (∃ i0 rest0 t, n.op_type = "Reshape" ∧ n.input = i0 :: rest0 ∧
      findInit I i0 = some t ∧ I2 = I) ∨
    (∃ i0 i1 rest, n.op_type = "Reshape" ∧ n.input = i0 :: i1 :: rest ∧
      findInit I i0 = none ∧ findInit I i1 = none ∧ I2 = I) ∨
    (∃ i0 i1 rest t t2, n.op_type = "Reshape" ∧ n.input = i0 :: i1 :: rest ∧
      findInit I i0 = none ∧ findInit I i1 = some t ∧ patchTensor t = .ok t2 ∧
      I2 = replaceFirst I i1 t2) := by
  unfold processNode at h
  by_cases hop : n.op_type = "Reshape"
  · rw [if_pos hop] at h
    cases hin : n.input with
    | nil => rw [hin] at h; exact absurd h (by simp)
    | cons i0 rest0 =>
      rw [hin] at h
      dsimp only at h
      cases hf0 : findInit I i0 with
      | some t =>
        rw [hf0] at h
        dsimp only at h
        exact Or.inr (Or.inl ⟨i0, rest0, t, hop, rfl, hf0, (Except.ok.inj h).symm⟩)
      | none =>
        rw [hf0] at h
        dsimp only at h
        cases rest0 with
        | nil => exact absurd h (by simp)
        | cons i1 rest =>
          dsimp only at h
          cases hf1 : findInit I i1 with
          | none =>
            rw [hf1] at h
            dsimp only at h
            exact Or.inr (Or.inr (Or.inl
              ⟨i0, i1, rest, hop, rfl, hf0, hf1, (Except.ok.inj h).symm⟩))
          | some t =>
            rw [hf1] at h
            dsimp only at h
            cases hp : patchTensor t with
            | error e => rw [hp] at h; exact absurd h (by simp)
            | ok t2 =>
              rw [hp] at h
              dsimp only at h
              exact Or.inr (Or.inr (Or.inr
                ⟨i0, i1, rest, t, t2, hop, rfl, hf0, hf1, hp, (Except.ok.inj h).symm⟩))
  · rw [if_neg hop] at h
    exact Or.inl ⟨hop, (Except.ok.inj h).symm⟩

theorem processNode_names (I I2 : List TensorProto) (n : NodeProto)
    (h : processNode I n = .ok I2) :
    I2.map (fun t => t.name) = I.map (fun t => t.name) := by
  rcases processNode_ok_inv I I2 n h with ⟨_, hI⟩ | ⟨i0, r0, t, _, _, _, hI⟩ |
    ⟨i0, i1, r, _, _, _, _, hI⟩ | ⟨i0, i1, r, t, t2, _, _, _, hf1, hp, hI⟩
  · rw [hI]
  · rw [hI]
  · rw [hI]
  · rw [hI]
    apply replaceFirst_map_name
    rw [patchTensor_name t t2 hp]
    exact findInit_name I i1 t hf1

theorem phase2_cons_of_ok (n : NodeProto) (ns : List NodeProto) (I I1 : List TensorProto)
    (h : processNode I n = .ok I1) : phase2 (n :: ns) I = phase2 ns I1 := by
  show (match processNode I n with
    | Except.error e => Except.error (e, I)
    | Except.ok inits2 => phase2 ns inits2) = phase2 ns I1
  rw [h]

theorem phase2_cons_of_error (n : NodeProto) (ns : List NodeProto) (I : List TensorProto)
    (e : Err) (h : processNode I n = .error e) : phase2 (n :: ns) I = .error (e, I) := by
  show (match processNode I n with
    | Except.error e => Except.error (e, I)
    | Except.ok inits2 => phase2 ns inits2) = .error (e, I)
  rw [h]

theorem phase2_ok_names (ns : List NodeProto) (I I2 : List TensorProto)
    (h : phase2 ns I = .ok I2) :
    I2.map (fun t => t.name) = I.map (fun t => t.name) := by
  induction ns generalizing I with
  | nil =>
    have hII : I = I2 := Except.ok.inj h
    rw [hII]
  | cons n ns ih =>
    cases hp : processNode I n with
    | error e =>
      rw [phase2_cons_of_error n ns I e hp] at h
      exact absurd h (by simp)
    | ok I1 =>
      rw [phase2_cons_of_ok n ns I I1 hp] at h
      exact (ih I1 h).trans (processNode_names I I1 n hp)

theorem phase2_append_ok (as bs : List NodeProto) (I K : List TensorProto) :
    phase2 (as ++ bs) I = .ok K ↔ ∃ J, phase2 as I = .ok J ∧ phase2 bs J = .ok K := by
  induction as generalizing I with
  | nil =>
    simp only [List.nil_append]
    constructor
    · intro h
      exact ⟨I, rfl, h⟩
    · rintro ⟨J, hJ, hK⟩
      have hIJ : I = J := Except.ok.inj hJ
      rw [hIJ]
      exact hK
  | cons n as ih =>
    simp only [List.cons_append]
    constructor
    · intro h
      cases hp : processNode I n with
      | error e =>
        rw [phase2_cons_of_error n (as ++ bs) I e hp] at h
        exact absurd h (by simp)
      | ok I1 =>
        rw [phase2_cons_of_ok n (as ++ bs) I I1 hp] at h
        obtain ⟨J, hJ, hK⟩ := (ih I1).mp h
        refine ⟨J, ?_, hK⟩
        rw [phase2_cons_of_ok n as I I1 hp]
        exact hJ
    · rintro ⟨J, hJ, hK⟩
      cases hp : processNode I n with
      | error e =>
        rw [phase2_cons_of_error n as I e hp] at hJ
        exact absurd hJ (by simp)
      | ok I1 =>
        rw [phase2_cons_of_ok n as I I1 hp] at hJ
        rw [phase2_cons_of_ok n (as ++ bs) I I1 hp]
        exact (ih I1).mpr ⟨J, hJ, hK⟩

theorem phase2_find_evolve (ns : List NodeProto) (I I2 : List TensorProto) (c : String)
    (t : TensorProto) (h : phase2 ns I = .ok I2) (hf : findInit I c = some t) :
    findInit I2 c = some t ∨ ∃ t2, patchTensor t = .ok t2 ∧ findInit I2 c = some t2 := by
  induction ns generalizing I t with
  | nil =>
    have hII : I = I2 := Except.ok.inj h
    left
    rw [← hII]
    exact hf
  | cons n ns ih =>
    cases hp : processNode I n with
    | error e =>
      rw [phase2_cons_of_error n ns I e hp] at h
      exact absurd h (by simp)
    | ok I1 =>
      rw [phase2_cons_of_ok n ns I I1 hp] at h
      rcases processNode_ok_inv I I1 n hp with ⟨_, hI⟩ | ⟨i0, r0, s, _, _, _, hI⟩ |
        ⟨i0, i1, r, _, _, _, _, hI⟩ | ⟨i0, i1, r, s, s2, hop, hin, hf0, hf1, hps, hI⟩
      · rw [hI] at h; exact ih I t h hf
      · rw [hI] at h; exact ih I t h hf
      · rw [hI] at h; exact ih I t h hf
      · have hs2name : s2.name = i1 := by
          rw [patchTensor_name s s2 hps]
          exact findInit_name I i1 s hf1
        by_cases hc : c = i1
        · subst hc
          have hts : t = s := by
            rw [hf] at hf1
            exact Option.some.inj hf1
          subst hts
          have hfI1 : findInit I1 c = some s2 := by
            rw [hI]
            exact replaceFirst_findInit_self I c s2 hs2name t hf
          rcases ih I1 s2 h hfI1 with hcase | ⟨u, hu, hfu⟩
          · exact Or.inr ⟨s2, hps, hcase⟩
          · have hus : s2 = u := Except.ok.inj ((patchTensor_idem t s2 hps).symm.trans hu)
            rw [← hus] at hfu
            exact Or.inr ⟨s2, hps, hfu⟩
        · have hfI1 : findInit I1 c = some t := by
            rw [hI, replaceFirst_findInit_other I i1 s2 hs2name c hc]
            exact hf
          exact ih I1 t h hfI1

theorem phase2_find_stable (ns : List NodeProto) (I I2 : List TensorProto) (c : String)
    (t : TensorProto) (h : phase2 ns I = .ok I2) (hf : findInit I c = some t)
    (hpt : patchTensor t = .ok t) : findInit I2 c = some t := by
  rcases phase2_find_evolve ns I I2 c t h hf with h1 | ⟨t2, hp2, hf2⟩
  · exact h1
  · have htt : t = t2 := Except.ok.inj (hpt.symm.trans hp2)
    rw [htt]
    exact hf2

theorem phase2_idem (ns : List NodeProto) (I I2 : List TensorProto)
    (h : phase2 ns I = .ok I2) : phase2 ns I2 = .ok I2 := by
  induction ns generalizing I with
  | nil => rfl
  | cons n ns ih =>
    cases hp : processNode I n with
    | error e =>
      rw [phase2_cons_of_error n ns I e hp] at h
      exact absurd h (by simp)
    | ok I1 =>
      rw [phase2_cons_of_ok n ns I I1 hp] at h
      have hn1 : I1.map (fun t => t.name) = I.map (fun t => t.name) :=
        processNode_names I I1 n hp
      have hn2 : I2.map (fun t => t.name) = I1.map (fun t => t.name) :=
        phase2_ok_names ns I1 I2 h
      have hrec : phase2 ns I2 = .ok I2 := ih I1 h
      have hpn : processNode I2 n = .ok I2 := by
        rcases processNode_ok_inv I I1 n hp with ⟨hop, hI⟩ | ⟨i0, r0, s, hop, hin, hf0, hI⟩ |
          ⟨i0, i1, r, hop, hin, hf0, hf1, hI⟩ |
          ⟨i0, i1, r, s, s2, hop, hin, hf0, hf1, hps, hI⟩
        · exact processNode_not_reshape I2 n hop
        · obtain ⟨u, hu⟩ := findInit_some_of_names I I2 i0 s (hn2.trans hn1).symm hf0
          exact processNode_skip_init I2 n i0 r0 u hop hin hu
        · have hf0' : findInit I2 i0 = none :=
            findInit_none_of_names I I2 i0 (hn2.trans hn1).symm hf0
          have hf1' : findInit I2 i1 = none :=
            findInit_none_of_names I I2 i1 (hn2.trans hn1).symm hf1
          exact processNode_skip_noshape I2 n i0 i1 r hop hin hf0' hf1'
        · have hf0' : findInit I2 i0 = none :=
            findInit_none_of_names I I2 i0 (hn2.trans hn1).symm hf0
          have hs2name : s2.name = i1 := by
            rw [patchTensor_name s s2 hps]
            exact findInit_name I i1 s hf1
          have hfI1 : findInit I1 i1 = some s2 := by
            rw [hI]
            exact replaceFirst_findInit_self I i1 s2 hs2name s hf1
          have hfI2 : findInit I2 i1 = some s2 :=
            phase2_find_stable ns I1 I2 i1 s2 h hfI1 (patchTensor_idem s s2 hps)
          have hstep := processNode_patch I2 n i0 i1 r s2 s2 hop hin hf0' hfI2
            (patchTensor_idem s s2 hps)
          rw [replaceFirst_eq_self I2 i1 s2 hfI2] at hstep
          exact hstep
      rw [phase2_cons_of_ok n ns I2 I2 hpn]
      exact hrec

theorem phase1_ok_inv (m : ModelProto) (bs : BatchSize) (m1 : ModelProto)
    (h : phase1 m bs = .ok m1) :
    ∃ cN, constantNames m.graph.node = .ok cN ∧
      m1 = ⟨⟨m.graph.node, m.graph.initializer,
        m.graph.input.map (updateVI (initializerNames m.graph) cN bs),
        m.graph.output.map (updateVI (initializerNames m.graph) cN bs),
        m.graph.value_info.map (updateVI (initializerNames m.graph) cN bs)⟩⟩ := by
  unfold phase1 at h
  cases hc : constantNames m.graph.node with
  | error e => rw [hc] at h; exact absurd h (by simp)
  | ok cN =>
    rw [hc] at h
    dsimp only at h
    exact ⟨cN, rfl, (Except.ok.inj h).symm⟩

theorem mutateModel_str_ok_inv (m : ModelProto) (s : String) (m2 : ModelProto)
    (h : mutateModel m (.str s) = .ok m2) :
    ∃ m1 I1, phase1 m (.str s) = .ok m1 ∧
      phase2 m1.graph.node m1.graph.initializer = .ok I1 ∧ m2 = setInits m1 I1 := by
  unfold mutateModel at h
  cases h1 : phase1 m (.str s) with
  | error e => rw [h1] at h; exact absurd h (by simp)
  | ok m1 =>
    rw [h1] at h
    dsimp only at h
    cases h2 : phase2 m1.graph.node m1.graph.initializer with
    | error ei =>
      obtain ⟨e, II⟩ := ei
      rw [h2] at h
      exact absurd h (by simp)
    | ok I1 =>
      rw [h2] at h
      dsimp only at h
      exact ⟨m1, I1, rfl, h2, (Except.ok.inj h).symm⟩

theorem mutateModel_int_ok_inv (m : ModelProto) (v : Int) (m2 : ModelProto)
    (h : mutateModel m (.int v) = .ok m2) : phase1 m (.int v) = .ok m2 := by
  unfold mutateModel at h
  cases h1 : phase1 m (.int v) with
  | error e => rw [h1] at h; exact absurd h (by simp)
  | ok m1 =>
    rw [h1] at h
    dsimp only at h
    rw [Except.ok.inj h]

theorem mutateModel_str_intro (m m1 : ModelProto) (s : String) (I1 : List TensorProto)
    (h1 : phase1 m (.str s) = .ok m1)
    (h2 : phase2 m1.graph.node m1.graph.initializer = .ok I1) :
    mutateModel m (.str s) = .ok (setInits m1 I1) := by
  unfold mutateModel
  rw [h1]
  dsimp only
  rw [h2]

theorem change_ok_inv (ch : ModelProto → Except String Unit) (m : ModelProto)
    (bs : BatchSize) (m2 : ModelProto) (h : change_batch_size ch m bs = .ok m2) :
    mutateModel m bs = .ok m2 ∧ ch m2 = .ok () := by
  unfold change_batch_size at h
  cases hm : mutateModel m bs with
  | error em => rw [hm] at h; exact absurd h (by simp)
  | ok m2' =>
    rw [hm] at h
    dsimp only at h
    cases hc : ch m2' with
    | error d => rw [hc] at h; exact absurd h (by simp)
    | ok u =>
      cases u
      rw [hc] at h
      dsimp only at h
      have hmm : m2' = m2 := Except.ok.inj h
      rw [← hmm]
      exact ⟨rfl, hc⟩

theorem change_ok_intro (ch : ModelProto → Except String Unit) (m : ModelProto)
    (bs : BatchSize) (m2 : ModelProto) (hm : mutateModel m bs = .ok m2)
    (hc : ch m2 = .ok ()) : change_batch_size ch m bs = .ok m2 := by
  unfold change_batch_size
  rw [hm]
  dsimp only
  rw [hc]

theorem head?_mem {α : Type} (l : List α) (a : α) (h : l.head? = some a) : a ∈ l := by
  cases l with
  | nil => exact absurd h (by simp)
  | cons b bs =>
    have hba : b = a := by simpa using h
    rw [← hba]
    exact List.mem_cons_self b bs

theorem constantNames_mem (ns : List NodeProto) (cN : List String)
    (h : constantNames ns = .ok cN) (c : String) :
    c ∈ cN ↔ ∃ n ∈ ns, n.op_type = "Constant" ∧ n.output.head? = some c := by
  induction ns generalizing cN with
  | nil =>
    have hcN : [] = cN := Except.ok.inj h
    rw [← hcN]
    simp
  | cons n ns ih =>
    unfold constantNames at h
    by_cases hop : n.op_type = "Constant"
    · rw [if_pos hop] at h
      cases hout : n.output with
      | nil => rw [hout] at h; exact absurd h (by simp)
      | cons o os =>
        rw [hout] at h
        cases hrec : constantNames ns with
        | error e => rw [hrec] at h; exact absurd h (by simp [Except.map])
        | ok cs =>
          rw [hrec] at h
          simp only [Except.map] at h
          have hcN : o :: cs = cN := Except.ok.inj h
          rw [← hcN]
          constructor
          · intro hmem
            rcases List.mem_cons.mp hmem with hco | hcs
            · exact ⟨n, List.mem_cons_self n ns, hop, by rw [hout, hco]; rfl⟩
            · obtain ⟨n2, hn2, hop2, hh2⟩ := (ih cs hrec).mp hcs
              exact ⟨n2, List.mem_cons_of_mem n hn2, hop2, hh2⟩
          · rintro ⟨n2, hn2, hop2, hh2⟩
            rcases List.mem_cons.mp hn2 with hne | hns
            · rw [hne] at hh2
              rw [hout] at hh2
              have hoc : o = c := by simpa using hh2
              exact List.mem_cons.mpr (Or.inl hoc.symm)
            · exact List.mem_cons.mpr (Or.inr ((ih cs hrec).mpr ⟨n2, hns, hop2, hh2⟩))
    · rw [if_neg hop] at h
      rw [ih cN h]
      constructor
      · rintro ⟨n2, hn2, hop2, hh2⟩
        exact ⟨n2, List.mem_cons_of_mem n hn2, hop2, hh2⟩
      · rintro ⟨n2, hn2, hop2, hh2⟩
        rcases List.mem_cons.mp hn2 with hne | hns
        · rw [hne] at hop2; exact absurd hop2 hop
        · exact ⟨n2, hns, hop2, hh2⟩

theorem change_ok_vi (ch : ModelProto → Except String Unit) (m : ModelProto) (bs : BatchSize)
    (m2 : ModelProto) (h : change_batch_size ch m bs = .ok m2) :
    ∃ cN, constantNames m.graph.node = .ok cN ∧
      m2.graph.node = m.graph.node ∧
      m2.graph.value_info =
        m.graph.value_info.map (updateVI (initializerNames m.graph) cN bs) ∧
      m2.graph.input = m.graph.input.map (updateVI (initializerNames m.graph) cN bs) ∧
      m2.graph.output = m.graph.output.map (updateVI (initializerNames m.graph) cN bs) := by
  obtain ⟨hm, hch⟩ := change_ok_inv ch m bs m2 h
  cases bs with
  | int v =>
    have h1 := mutateModel_int_ok_inv m v m2 hm
    obtain ⟨cN, hc, hm1⟩ := phase1_ok_inv m (.int v) m2 h1
    exact ⟨cN, hc, by rw [hm1], by rw [hm1], by rw [hm1], by rw [hm1]⟩
  | str s =>
    obtain ⟨m1, I1, h1, h2, hm2⟩ := mutateModel_str_ok_inv m s m2 hm
    obtain ⟨cN, hc, hm1⟩ := phase1_ok_inv m (.str s) m1 h1
    refine ⟨cN, hc, ?_, ?_, ?_, ?_⟩
    · rw [hm2, hm1]; rfl
    · rw [hm2, hm1]; rfl
    · rw [hm2, hm1]; rfl
    · rw [hm2, hm1]; rfl

/-- C4: after mutating the graph, change_batch_size hands the whole mutated
model to the external shape-inference checker (modelled as the checker
capability); any failure aborts the rewrite with the engine's diagnostic
wrapped in ConsistencyCheckFailed, and the model state surfaced alongside the
error is the fully mutated model m2, not the original - the rewrite is not
undone. -/
theorem change_batch_size_consistency_gate (checker : ModelProto → Except String Unit)
    (m m2 : ModelProto) (bs : BatchSize) (d : String)
    (hm : mutateModel m bs = .ok m2) (hd : checker m2 = .error d) :
    change_batch_size checker m bs = .error (.ConsistencyCheckFailed d, m2) := by
  unfold change_batch_size
  rw [hm]
  dsimp only
  rw [hd]

theorem change_batch_size_consistency_gate_witness :
    change_batch_size (fun _ => .error "shape error") ⟨⟨[], [], [], [], []⟩⟩ (.str "N") =
      .error (.ConsistencyCheckFailed "shape error", ⟨⟨[], [], [], [], []⟩⟩) :=
  change_batch_size_consistency_gate (fun _ => .error "shape error")
    ⟨⟨[], [], [], [], []⟩⟩ ⟨⟨[], [], [], [], []⟩⟩ (.str "N") "shape error" rfl rfl

/-- C2: for every ValueInfo record of value_info, inputs and outputs whose name
is neither an initializer name nor produced by a Constant node, and whose
shape has at least one dimension, a successful change_batch_size sets
dimension 0 to the requested batch token (a symbolic dim_param for a string
argument, a literal dim_value otherwise) and leaves the name and all other
dimensions unchanged. -/
theorem change_batch_size_dim0_rewrite (checker : ModelProto → Except String Unit)
    (m m2 : ModelProto) (bs : BatchSize) (h : change_batch_size checker m bs = .ok m2) :
    (m2.graph.value_info ++ m2.graph.input ++ m2.graph.output).length =
      (m.graph.value_info ++ m.graph.input ++ m.graph.output).length ∧
    ∀ i (hi : i < (m.graph.value_info ++ m.graph.input ++ m.graph.output).length)
      (hi2 : i < (m2.graph.value_info ++ m2.graph.input ++ m2.graph.output).length)
      (d0 : Dim) (rest : List Dim),
      ((m.graph.value_info ++ m.graph.input ++ m.graph.output).get ⟨i, hi⟩).name ∉
        initializerNames m.graph →
      (∀ n ∈ m.graph.node, n.op_type = "Constant" →
        ((m.graph.value_info ++ m.graph.input ++ m.graph.output).get ⟨i, hi⟩).name ∉
          n.output) →
      ((m.graph.value_info ++ m.graph.input ++ m.graph.output).get ⟨i, hi⟩).dim =
        d0 :: rest →
      (m2.graph.value_info ++ m2.graph.input ++ m2.graph.output).get ⟨i, hi2⟩ =
        ⟨((m.graph.value_info ++ m.graph.input ++ m.graph.output).get ⟨i, hi⟩).name,
          (match bs with | .str s => Dim.param s | .int v => Dim.value v) :: rest⟩ := by
  obtain ⟨cN, hc, hnode, hvi, hinp, hout⟩ := change_ok_vi checker m bs m2 h
  have hchain : m2.graph.value_info ++ m2.graph.input ++ m2.graph.output =
      (m.graph.value_info ++ m.graph.input ++ m.graph.output).map
        (updateVI (initializerNames m.graph) cN bs) := by
    rw [hvi, hinp, hout, List.map_append, List.map_append]
  constructor
  · rw [hchain, List.length_map]
  · intro i hi hi2 d0 rest hnotin hnc hdim
    have hget : (m2.graph.value_info ++ m2.graph.input ++ m2.graph.output).get ⟨i, hi2⟩ =
        updateVI (initializerNames m.graph) cN bs
          ((m.graph.value_info ++ m.graph.input ++ m.graph.output).get ⟨i, hi⟩) := by
      simp only [hchain, List.get_eq_getElem, List.getElem_map]
    rw [hget]
    have hnotin2 :
        ((m.graph.value_info ++ m.graph.input ++ m.graph.output).get ⟨i, hi⟩).name ∉ cN := by
      intro hmem
      obtain ⟨n, hn, hop, hh⟩ := (constantNames_mem m.graph.node cN hc _).mp hmem
      exact hnc n hn hop (head?_mem _ _ hh)
    unfold updateVI
    rw [if_neg (by push_neg; exact ⟨hnotin, hnotin2⟩), hdim]
    cases bs <;> rfl

/-- Concrete model for the C2 witness: one graph input of shape [10, 3], no
initializers, no Constant nodes. -/
def c2Model : ModelProto :=
  ⟨⟨[], [], [⟨"x", [Dim.value 10, Dim.value 3]⟩], [], []⟩⟩

/-- The C2 witness model after a symbolic rewrite with token N. -/
def c2ModelOut : ModelProto :=
  ⟨⟨[], [], [⟨"x", [Dim.param "N", Dim.value 3]⟩], [], []⟩⟩

theorem change_batch_size_dim0_rewrite_witness :
    change_batch_size (fun _ => .ok ()) c2Model (.str "N") = .ok c2ModelOut ∧
    (c2ModelOut.graph.value_info ++ c2ModelOut.graph.input ++
        c2ModelOut.graph.output).get ⟨0, by decide⟩ =
      ⟨"x", (match BatchSize.str "N" with
        | .str s => Dim.param s
        | .int v => Dim.value v) :: [Dim.value 3]⟩ := by
  constructor
  · rfl
  · exact (change_batch_size_dim0_rewrite (fun _ => .ok ()) c2Model c2ModelOut
      (.str "N") rfl).2 0 (by decide) (by decide) (Dim.value 10) [Dim.value 3]
      (by decide) (by intro n hn; exact absurd hn (by simp [c2Model])) rfl

/-- C6: a ValueInfo whose name is an initializer name or is produced by a
Constant node keeps its record unchanged through change_batch_size, and a
graph in which every ValueInfo name is in those sets keeps all three
ValueInfo collections unchanged.  The well-formedness hypothesis that every
Constant node has exactly one output reflects the ONNX operator schema
(Constant produces a single output); the code reads node.output[0]. -/
theorem change_batch_size_const_skip (checker : ModelProto → Except String Unit)
    (m m2 : ModelProto) (bs : BatchSize) (h : change_batch_size checker m bs = .ok m2)
    (hwf : ∀ n ∈ m.graph.node, n.op_type = "Constant" → n.output.length = 1) :
    (∀ i (hi : i < (m.graph.value_info ++ m.graph.input ++ m.graph.output).length)
      (hi2 : i < (m2.graph.value_info ++ m2.graph.input ++ m2.graph.output).length),
      (((m.graph.value_info ++ m.graph.input ++ m.graph.output).get ⟨i, hi⟩).name ∈
          initializerNames m.graph ∨
        ∃ n ∈ m.graph.node, n.op_type = "Constant" ∧
          ((m.graph.value_info ++ m.graph.input ++ m.graph.output).get ⟨i, hi⟩).name ∈
            n.output) →
      (m2.graph.value_info ++ m2.graph.input ++ m2.graph.output).get ⟨i, hi2⟩ =
        (m.graph.value_info ++ m.graph.input ++ m.graph.output).get ⟨i, hi⟩) ∧
    ((∀ vi ∈ m.graph.value_info ++ m.graph.input ++ m.graph.output,
        vi.name ∈ initializerNames m.graph ∨
        ∃ n ∈ m.graph.node, n.op_type = "Constant" ∧ vi.name ∈ n.output) →
      m2.graph.value_info = m.graph.value_info ∧ m2.graph.input = m.graph.input ∧
        m2.graph.output = m.graph.output) := by
  obtain ⟨cN, hc, hnode, hvi, hinp, hout⟩ := change_ok_vi checker m bs m2 h
  have hchain : m2.graph.value_info ++ m2.graph.input ++ m2.graph.output =
      (m.graph.value_info ++ m.graph.input ++ m.graph.output).map
        (updateVI (initializerNames m.graph) cN bs) := by
    rw [hvi, hinp, hout, List.map_append, List.map_append]
  have hskip : ∀ vi : ValueInfoProto,
      (vi.name ∈ initializerNames m.graph ∨
        ∃ n ∈ m.graph.node, n.op_type = "Constant" ∧ vi.name ∈ n.output) →
      updateVI (initializerNames m.graph) cN bs vi = vi := by
    intro vi hcond
    have hmem : vi.name ∈ initializerNames m.graph ∨ vi.name ∈ cN := by
      rcases hcond with hi3 | ⟨n, hn, hop, hm3⟩
      · exact Or.inl hi3
      · right
        rw [constantNames_mem m.graph.node cN hc]
        refine ⟨n, hn, hop, ?_⟩
        have hlen := hwf n hn hop
        cases houtn : n.output with
        | nil => rw [houtn] at hlen; exact absurd hlen (by simp)
        | cons o os =>
          rw [houtn] at hlen hm3
          have hos : os = [] := by
            simp only [List.length_cons] at hlen
            exact List.length_eq_zero.mp (by omega)
          rw [hos] at hm3
          have hvo : vi.name = o := by simpa using hm3
          rw [hvo]
          rfl
    unfold updateVI
    rw [if_pos hmem]
  constructor
  · intro i hi hi2 hcond
    have hget : (m2.graph.value_info ++ m2.graph.input ++ m2.graph.output).get ⟨i, hi2⟩ =
        updateVI (initializerNames m.graph) cN bs
          ((m.graph.value_info ++ m.graph.input ++ m.graph.output).get ⟨i, hi⟩) := by
      simp only [hchain, List.get_eq_getElem, List.getElem_map]
    rw [hget]
    exact hskip _ hcond
  · intro hall
    have hfix : ∀ L : List ValueInfoProto,
        (∀ vi ∈ L, vi ∈ m.graph.value_info ++ m.graph.input ++ m.graph.output) →
        L.map (updateVI (initializerNames m.graph) cN bs) = L := by
      intro L hsub
      have hpt : ∀ a ∈ L, updateVI (initializerNames m.graph) cN bs a = id a :=
        fun a ha => hskip a (hall a (hsub a ha))
      rw [List.map_congr_left hpt, List.map_id]
    refine ⟨?_, ?_, ?_⟩
    · rw [hvi]
      exact hfix m.graph.value_info (fun vi hv => by
        simp only [List.mem_append]
        exact Or.inl (Or.inl hv))
    · rw [hinp]
      exact hfix m.graph.input (fun vi hv => by
        simp only [List.mem_append]
        exact Or.inl (Or.inr hv))
    · rw [hout]
      exact hfix m.graph.output (fun vi hv => by
        simp only [List.mem_append]
        exact Or.inr hv)

/-- Concrete model for the C6 witness: one initializer t, one Constant node
producing c, value_info for t and an input for c; nothing else. -/
def c6Model : ModelProto :=
  ⟨⟨[⟨"Constant", [], ["c"]⟩], [⟨"t", 7, [1], [], [3], []⟩],
    [⟨"c", [Dim.value 5]⟩], [], [⟨"t", [Dim.value 3]⟩]⟩⟩

theorem change_batch_size_const_skip_witness :
    change_batch_size (fun _ => .ok ()) c6Model (.str "N") = .ok c6Model ∧
    (c6Model.graph.value_info = c6Model.graph.value_info ∧
      c6Model.graph.input = c6Model.graph.input ∧
      c6Model.graph.output = c6Model.graph.output) := by
  constructor
  · rfl
  · exact (change_batch_size_const_skip (fun _ => .ok ()) c6Model c6Model (.str "N") rfl
      (by decide)).2 (by decide)

theorem patchTensor_rank1_int64 (t : TensorProto) (k : Nat) (v : Int) (vs : List Int)
    (htype : t.data_type = TensorProto.INT64) (hk : k ≠ 0)
    (hex : extract_data t = .ok (.tensor [k] (Scalar.i64 v :: vs.map Scalar.i64))) :
    patchTensor t = .ok ⟨t.name, TensorProto.INT64, [k], [], 0 :: vs, []⟩ := by
  unfold patchTensor
  rw [hex]
  dsimp only
  rw [if_neg hk]
  have hz : zeroScalar t.data_type = Scalar.i64 0 := by
    unfold zeroScalar
    rw [htype, if_neg (by simp [TensorProto.INT64, TensorProto.FLOAT])]
  rw [hz]
  have hvals : toInt64Vals (List.replicate (List.prod ([] : List Nat)) (Scalar.i64 0) ++
      List.drop (List.prod ([] : List Nat)) (Scalar.i64 v :: vs.map Scalar.i64)) =
      .ok (0 :: vs) := toInt64Vals_map (0 :: vs)
  rw [hvals]

/-- C1: for every Reshape node whose first input is not an initializer and
whose second input names an initializer, a successful symbolic
change_batch_size replaces that target-shape initializer by a tensor with
element 0 overwritten to 0, the remaining elements unchanged, the same name,
INT64 data type and dimensions equal to the shape of the modified value
sequence.  The hypotheses that the target shape is a rank-1 INT64 tensor with
a nonzero leading dimension and that it decodes successfully reflect the ONNX
Reshape operator contract (its shape input is a nonempty 1-D tensor(int64));
a model violating them makes the whole rewrite raise instead. -/
theorem change_batch_size_reshape_patch (checker : ModelProto → Except String Unit)
    (m m2 : ModelProto) (s : String) (h : change_batch_size checker m (.str s) = .ok m2)
    (n : NodeProto) (hn : n ∈ m.graph.node) (hop : n.op_type = "Reshape")
    (i0 i1 : String) (restIn : List String) (hin : n.input = i0 :: i1 :: restIn)
    (h0 : find_initializer m i0 = none)
    (t : TensorProto) (h1 : find_initializer m i1 = some t)
    (htype : t.data_type = TensorProto.INT64)
    (k : Nat) (ivals : List Int) (hk : k ≠ 0)
    (hex : extract_data t = .ok (.tensor [k] (ivals.map Scalar.i64))) :
    find_initializer m2 i1 =
      some ⟨i1, TensorProto.INT64, [k], [], 0 :: ivals.tail, []⟩ := by
  have hname : t.name = i1 := findInit_name _ _ _ h1
  obtain ⟨hdims, hne, hlen, hdec⟩ := extract_data_tensor_inv t _ _ hex
  have hlk : ivals.length = k := by
    rw [← hdims] at hlen
    simpa using hlen
  cases hiv : ivals with
  | nil =>
    exfalso
    rw [hiv] at hlk
    simp at hlk
    omega
  | cons v vs =>
    rw [hiv] at hex hlk
    simp only [List.tail_cons]
    have hpatch : patchTensor t = .ok ⟨t.name, TensorProto.INT64, [k], [], 0 :: vs, []⟩ :=
      patchTensor_rank1_int64 t k v vs htype hk hex
    have hpatch' : patchTensor t = .ok ⟨i1, TensorProto.INT64, [k], [], 0 :: vs, []⟩ := by
      rw [hpatch, hname]
    obtain ⟨hm, hch⟩ := change_ok_inv checker m (.str s) m2 h
    obtain ⟨m1, I1, hp1, hp2, hm2⟩ := mutateModel_str_ok_inv m s m2 hm
    obtain ⟨cN, hcN, hm1⟩ := phase1_ok_inv m (.str s) m1 hp1
    have hp2' : phase2 m.graph.node m.graph.initializer = .ok I1 := by
      rw [hm1] at hp2
      exact hp2
    obtain ⟨pre, post, hsplit⟩ := List.append_of_mem hn
    rw [hsplit] at hp2'
    obtain ⟨J, hJ, hK⟩ := (phase2_append_ok pre (n :: post) m.graph.initializer I1).mp hp2'
    have hnames : J.map (fun t => t.name) =
        m.graph.initializer.map (fun t => t.name) := phase2_ok_names pre _ J hJ
    have hf0J : findInit J i0 = none :=
      findInit_none_of_names m.graph.initializer J i0 hnames.symm h0
    have hidem : patchTensor ⟨i1, TensorProto.INT64, [k], [], 0 :: vs, []⟩ =
        .ok ⟨i1, TensorProto.INT64, [k], [], 0 :: vs, []⟩ :=
      patchTensor_idem t _ hpatch'
    have hfinI1 : findInit I1 i1 = some ⟨i1, TensorProto.INT64, [k], [], 0 :: vs, []⟩ := by
      rcases phase2_find_evolve pre _ J i1 t hJ h1 with hJt | ⟨t2, hpt2, hJt2⟩
      · have hstep := processNode_patch J n i0 i1 restIn t
          ⟨i1, TensorProto.INT64, [k], [], 0 :: vs, []⟩ hop hin hf0J hJt hpatch'
        rw [phase2_cons_of_ok n post J _ hstep] at hK
        have hreplace : findInit (replaceFirst J i1 ⟨i1, TensorProto.INT64, [k], [], 0 :: vs, []⟩)
            i1 = some ⟨i1, TensorProto.INT64, [k], [], 0 :: vs, []⟩ :=
          replaceFirst_findInit_self J i1 _ rfl t hJt
        exact phase2_find_stable post _ I1 i1 _ hK hreplace hidem
      · have ht2 : t2 = ⟨i1, TensorProto.INT64, [k], [], 0 :: vs, []⟩ :=
          Except.ok.inj (hpt2.symm.trans hpatch')
        rw [ht2] at hJt2
        have hstep := processNode_patch J n i0 i1 restIn
          ⟨i1, TensorProto.INT64, [k], [], 0 :: vs, []⟩
          ⟨i1, TensorProto.INT64, [k], [], 0 :: vs, []⟩ hop hin hf0J hJt2 hidem
        rw [replaceFirst_eq_self J i1 _ hJt2] at hstep
        rw [phase2_cons_of_ok n post J J hstep] at hK
        exact phase2_find_stable post J I1 i1 _ hK hJt2 hidem
    have hm2i : m2.graph.initializer = I1 := by
      rw [hm2]
      rfl
    show findInit m2.graph.initializer i1 = _
    rw [hm2i, hfinI1]

/-- Concrete model for the C1 witness: graph input x of shape [10, 784], one
Reshape node taking x and the INT64 target-shape initializer shape0 = [10, -1]. -/
def c1Model : ModelProto :=
  ⟨⟨[⟨"Reshape", ["x", "shape0"], ["y"]⟩],
    [⟨"shape0", 7, [2], [], [10, -1], []⟩],
    [⟨"x", [Dim.value 10, Dim.value 784]⟩], [], []⟩⟩

/-- The C1 witness model after the symbolic rewrite. -/
def c1Out : ModelProto :=
  ⟨⟨[⟨"Reshape", ["x", "shape0"], ["y"]⟩],
    [⟨"shape0", 7, [2], [], [0, -1], []⟩],
    [⟨"x", [Dim.param "N", Dim.value 784]⟩], [], []⟩⟩

theorem change_batch_size_reshape_patch_witness :
    change_batch_size (fun _ => .ok ()) c1Model (.str "N") = .ok c1Out ∧
    find_initializer c1Out "shape0" =
      some ⟨"shape0", TensorProto.INT64, [2], [], 0 :: [(-1 : Int)], []⟩ := by
  constructor
  · rfl
  · exact change_batch_size_reshape_patch (fun _ => .ok ()) c1Model c1Out "N" rfl
      ⟨"Reshape", ["x", "shape0"], ["y"]⟩ (by decide) rfl "x" "shape0" [] rfl rfl
      ⟨"shape0", 7, [2], [], [10, -1], []⟩ rfl rfl 2 [10, -1] (by decide) rfl

/-- Concrete model refuting C3 as stated: node a is a Reshape whose first
input W is an initializer (so a itself is skipped), but node b is a Reshape
sharing the same target-shape initializer S with a non-initializer data
input, so the rewrite still patches S. -/
def c3Model : ModelProto :=
  ⟨⟨[⟨"Reshape", ["W", "S"], ["a"]⟩, ⟨"Reshape", ["x", "S"], ["b"]⟩],
    [⟨"W", 7, [1], [], [5], []⟩, ⟨"S", 7, [2], [], [10, -1], []⟩],
    [⟨"x", [Dim.value 10, Dim.value 784]⟩], [], []⟩⟩

/-- The counterexample model after the symbolic rewrite: S has been patched. -/
def c3Out : ModelProto :=
  ⟨⟨[⟨"Reshape", ["W", "S"], ["a"]⟩, ⟨"Reshape", ["x", "S"], ["b"]⟩],
    [⟨"W", 7, [1], [], [5], []⟩, ⟨"S", 7, [2], [], [0, -1], []⟩],
    [⟨"x", [Dim.param "N", Dim.value 784]⟩], [], []⟩⟩

/-- C3 counterexample: in c3Model the Reshape node a has an initializer (W) as
its first input and S as its target-shape initializer, yet after a successful
symbolic change_batch_size the initializer S is no longer the original record:
another Reshape node that shares S rewrote it.  So the rewrite does not leave
the skipped node's target-shape initializer untouched in general. -/
theorem change_batch_size_reshape_skip_counterexample :
    (⟨"Reshape", ["W", "S"], ["a"]⟩ : NodeProto) ∈ c3Model.graph.node ∧
    find_initializer c3Model "W" = some ⟨"W", 7, [1], [], [5], []⟩ ∧
    find_initializer c3Model "S" = some ⟨"S", 7, [2], [], [10, -1], []⟩ ∧
    change_batch_size (fun _ => .ok ()) c3Model (.str "N") = .ok c3Out ∧
    find_initializer c3Out "S" = some ⟨"S", 7, [2], [], [0, -1], []⟩ ∧
    (⟨"S", 7, [2], [], [0, -1], []⟩ : TensorProto) ≠ ⟨"S", 7, [2], [], [10, -1], []⟩ :=
  ⟨by decide, rfl, rfl, rfl, rfl, by decide⟩

/-- C3 amended: a Reshape node whose first input names an initializer is
skipped - processing that node leaves the initializer list unchanged - and if
every Reshape node's first input names an initializer, change_batch_size
leaves every initializer unchanged.  (The initializer named by such a node's
second input can still be modified when a different, non-skipped Reshape node
names it as its own target shape.) -/
theorem change_batch_size_reshape_skip :
    (∀ (I : List TensorProto) (n : NodeProto) (i0 : String) (rest0 : List String)
      (t : TensorProto), n.op_type = "Reshape" → n.input = i0 :: rest0 →
      findInit I i0 = some t → processNode I n = .ok I) ∧
    (∀ (checker : ModelProto → Except String Unit) (m m2 : ModelProto) (s : String),
      change_batch_size checker m (.str s) = .ok m2 →
      (∀ n ∈ m.graph.node, n.op_type = "Reshape" →
        ∃ i0 rest0 t, n.input = i0 :: rest0 ∧ find_initializer m i0 = some t) →
      m2.graph.initializer = m.graph.initializer) := by
  constructor
  · intro I n i0 rest0 t hop hin hf
    exact processNode_skip_init I n i0 rest0 t hop hin hf
  · intro checker m m2 s h hall
    obtain ⟨hm, hch⟩ := change_ok_inv checker m (.str s) m2 h
    obtain ⟨m1, I1, hp1, hp2, hm2⟩ := mutateModel_str_ok_inv m s m2 hm
    obtain ⟨cN, hcN, hm1⟩ := phase1_ok_inv m (.str s) m1 hp1
    have hp2' : phase2 m.graph.node m.graph.initializer = .ok I1 := by
      rw [hm1] at hp2
      exact hp2
    have hIeq : I1 = m.graph.initializer := by
      have key : ∀ (ns : List NodeProto) (I2 : List TensorProto),
          (∀ n ∈ ns, n.op_type = "Reshape" →
            ∃ i0 rest0 t, n.input = i0 :: rest0 ∧
              findInit m.graph.initializer i0 = some t) →
          phase2 ns m.graph.initializer = .ok I2 → I2 = m.graph.initializer := by
        intro ns
        induction ns with
        | nil =>
          intro I2 _ hph
          exact (Except.ok.inj hph).symm
        | cons n ns ih =>
          intro I2 hall2 hph
          by_cases hop : n.op_type = "Reshape"
          · obtain ⟨i0, rest0, t, hin, hf⟩ := hall2 n (List.mem_cons_self n ns) hop
            rw [phase2_cons_of_ok n ns _ _
              (processNode_skip_init _ n i0 rest0 t hop hin hf)] at hph
            exact ih I2 (fun n2 hn2 hop2 => hall2 n2 (List.mem_cons_of_mem n hn2) hop2) hph
          · rw [phase2_cons_of_ok n ns _ _ (processNode_not_reshape _ n hop)] at hph
            exact ih I2 (fun n2 hn2 hop2 => hall2 n2 (List.mem_cons_of_mem n hn2) hop2) hph
      exact key m.graph.node I1 (fun n hn hop => hall n hn hop) hp2'
    rw [hm2]
    exact hIeq

theorem change_batch_size_reshape_skip_witness :
    processNode [⟨"W", 7, [1], [], [5], []⟩]
      ⟨"Reshape", ["W", "S"], ["a"]⟩ = .ok [⟨"W", 7, [1], [], [5], []⟩] :=
  change_batch_size_reshape_skip.1 [⟨"W", 7, [1], [], [5], []⟩]
    ⟨"Reshape", ["W", "S"], ["a"]⟩ "W" ["S"] ⟨"W", 7, [1], [], [5], []⟩ rfl rfl rfl

theorem updateVI_idem (iN cN : List String) (bs : BatchSize) (vi : ValueInfoProto) :
    updateVI iN cN bs (updateVI iN cN bs vi) = updateVI iN cN bs vi := by
  by_cases hc : vi.name ∈ iN ∨ vi.name ∈ cN
  · have h1 : updateVI iN cN bs vi = vi := by
      unfold updateVI
      rw [if_pos hc]
    rw [h1]
    exact h1
  · cases hd : vi.dim with
    | nil =>
      have h1 : updateVI iN cN bs vi = vi := by
        unfold updateVI
        rw [if_neg hc, hd]
      rw [h1]
      exact h1
    | cons d0 rest =>
      have h1 : updateVI iN cN bs vi = ⟨vi.name, batchDim bs :: rest⟩ := by
        unfold updateVI
        rw [if_neg hc, hd]
      rw [h1]
      unfold updateVI
      dsimp only
      rw [if_neg hc]

/-- C10: symbolic change_batch_size is idempotent - if one application
succeeds, applying it again with the same token to the resulting model
succeeds and returns that model unchanged: every qualifying ValueInfo's
dimension 0 is overwritten with the same symbolic name again, and every
patched target-shape initializer decodes to the already-patched values and is
re-encoded into an identical INT64 record. -/
theorem change_batch_size_idempotent (checker : ModelProto → Except String Unit)
    (m m2 : ModelProto) (s : String)
    (h : change_batch_size checker m (.str s) = .ok m2) :
    change_batch_size checker m2 (.str s) = .ok m2 := by
  obtain ⟨hm, hch⟩ := change_ok_inv checker m (.str s) m2 h
  obtain ⟨m1, I1, hp1, hp2, hm2⟩ := mutateModel_str_ok_inv m s m2 hm
  obtain ⟨cN, hcN, hm1⟩ := phase1_ok_inv m (.str s) m1 hp1
  have hm2node : m2.graph.node = m.graph.node := by rw [hm2, hm1]; rfl
  have hm2init : m2.graph.initializer = I1 := by rw [hm2]; rfl
  have hm2vi : m2.graph.value_info =
      m.graph.value_info.map (updateVI (initializerNames m.graph) cN (.str s)) := by
    rw [hm2, hm1]; rfl
  have hm2in : m2.graph.input =
      m.graph.input.map (updateVI (initializerNames m.graph) cN (.str s)) := by
    rw [hm2, hm1]; rfl
  have hm2out : m2.graph.output =
      m.graph.output.map (updateVI (initializerNames m.graph) cN (.str s)) := by
    rw [hm2, hm1]; rfl
  have hp2' : phase2 m.graph.node m.graph.initializer = .ok I1 := by
    rw [hm1] at hp2
    exact hp2
  have hnames : I1.map (fun t => t.name) =
      m.graph.initializer.map (fun t => t.name) := phase2_ok_names _ _ _ hp2'
  have hiNames : initializerNames m2.graph = initializerNames m.graph := by
    unfold initializerNames
    rw [hm2init]
    exact hnames
  have hcN2 : constantNames m2.graph.node = .ok cN := by
    rw [hm2node]
    exact hcN
  have hupd : ∀ L : List ValueInfoProto,
      (L.map (updateVI (initializerNames m.graph) cN (.str s))).map
        (updateVI (initializerNames m.graph) cN (.str s)) =
      L.map (updateVI (initializerNames m.graph) cN (.str s)) := by
    intro L
    rw [List.map_map]
    apply List.map_congr_left
    intro a _
    exact updateVI_idem (initializerNames m.graph) cN (.str s) a
  have hviFix : m2.graph.value_info.map (updateVI (initializerNames m2.graph) cN (.str s)) =
      m2.graph.value_info := by
    rw [hiNames, hm2vi]
    exact hupd m.graph.value_info
  have hinFix : m2.graph.input.map (updateVI (initializerNames m2.graph) cN (.str s)) =
      m2.graph.input := by
    rw [hiNames, hm2in]
    exact hupd m.graph.input
  have houtFix : m2.graph.output.map (updateVI (initializerNames m2.graph) cN (.str s)) =
      m2.graph.output := by
    rw [hiNames, hm2out]
    exact hupd m.graph.output
  have hph1 : phase1 m2 (.str s) = .ok ⟨⟨m2.graph.node, m2.graph.initializer,
      m2.graph.input.map (updateVI (initializerNames m2.graph) cN (.str s)),
      m2.graph.output.map (updateVI (initializerNames m2.graph) cN (.str s)),
      m2.graph.value_info.map (updateVI (initializerNames m2.graph) cN (.str s))⟩⟩ := by
    unfold phase1
    rw [hcN2]
  have hph1' : phase1 m2 (.str s) = .ok m2 := by
    rw [hph1, hviFix, hinFix, houtFix]
  have hp2run2 : phase2 m2.graph.node m2.graph.initializer = .ok I1 := by
    rw [hm2node, hm2init]
    exact phase2_idem m.graph.node m.graph.initializer I1 hp2'
  have hmut2 := mutateModel_str_intro m2 m2 s I1 hph1' hp2run2
  have hset : setInits m2 I1 = m2 := by
    rw [← hm2init]
    rfl
  rw [hset] at hmut2
  exact change_ok_intro checker m2 (.str s) m2 hmut2 hch

/-- Concrete model for the C10 witness: one rewrite actually happens on both
the input shape and the Reshape target initializer. -/
def c10Model : ModelProto :=
  ⟨⟨[⟨"Reshape", ["x", "s0"], ["y"]⟩],
    [⟨"s0", 7, [2], [], [10, -1], []⟩],
    [⟨"x", [Dim.value 10, Dim.value 4]⟩], [], []⟩⟩

/-- The C10 witness model after one symbolic rewrite. -/
def c10Out : ModelProto :=
  ⟨⟨[⟨"Reshape", ["x", "s0"], ["y"]⟩],
    [⟨"s0", 7, [2], [], [0, -1], []⟩],
    [⟨"x", [Dim.param "N", Dim.value 4]⟩], [], []⟩⟩

theorem change_batch_size_idempotent_witness :
    change_batch_size (fun _ => .ok ()) c10Model (.str "N") = .ok c10Out ∧
    change_batch_size (fun _ => .ok ()) c10Out (.str "N") = .ok c10Out :=
  ⟨rfl, change_batch_size_idempotent (fun _ => .ok ()) c10Model c10Out "N" rfl⟩

end StatefulCNN
